import Mathlib

/-!
Shallow embedding of `jobfunnel/backend/scrapers/indeed.py`
(`BaseIndeedScraper` and its locale subclasses), together with theorems
checking the natural-language specification of the scraping pipeline
against this code.

The embedding models the fragment-processing loop of `scrape`
(lines 73-142), the page-count computation `get_num_pages_to_scrape`,
the page-fetch URL construction (`scrape` lines 61-70 together with
`search_page_for_job_soups`), the radius quantizer `convert_radius`,
and the secondary fetch `get_full_description`.

Collaborators that live outside the scraper module (`Job`,
`JobStatus`, `Locale`, `get_domain_from_locale`,
`Job.set_post_date_from_relative_date`, `Job.clean_strings`) are
modelled from the specification; each such definition carries a doc
comment saying so.
-/

namespace Indeed

/-- Log levels of the logging collaborator (`logging.Logger`):
the scraper emits `info`, `warning` and `error` events. -/
inductive LogLevel
  | info
  | warning
  | error
  deriving DecidableEq, Repr

/-- Modelled from the spec: `Locale` (from `jobfunnel.backend.localization`,
not under `src/`) identifies the site/region; the two locales instantiated
by this file are `IndeedScraperCAEng` and `IndeedScraperUSAEng`. -/
inductive Locale
  | CANADA_ENGLISH
  | USA_ENGLISH
  deriving DecidableEq, Repr

/-- Modelled from the spec: `JobStatus` (from `jobfunnel.backend`, not under
`src/`) is an enum whose initial value for scraped records is `NEW`;
the other members are not observable in this module, one (`ARCHIVE`)
is included so that `status = NEW` is not vacuous. -/
inductive JobStatus
  | NEW
  | ARCHIVE
  deriving DecidableEq, Repr

/-- An absolute calendar date (`datetime.datetime` truncated to the
year/month/day the scraper uses). -/
structure Date where
  year : Nat
  month : Nat
  day : Nat
  deriving DecidableEq, Repr

/-- The sentinel `datetime.datetime(1970, 1, 1)` assigned on date-parse
failure (line 136). -/
def epochDate : Date := ⟨1970, 1, 1⟩

/-- The `post_date` slot of a job: first holds the raw relative-date text
scraped by `get_date`, later an absolute date after
`set_post_date_from_relative_date`. -/
inductive PostDate
  | raw (text : String)
  | abs (date : Date)
  deriving DecidableEq, Repr

/-- A `RawListingFragment`: one `organicJob` soup. Each field records what
the corresponding extractor (`get_title`, `get_company`, `get_location`,
`get_id`, `get_tags`, `get_date`) returns, `none` standing for the
`AttributeError` the extractor raises when the markup element is absent. -/
structure Fragment where
  title : Option String
  company : Option String
  location : Option String
  key_id : Option String
  tags : Option (List String)
  date : Option String
  deriving DecidableEq, Repr

/-- Modelled from the spec: the `Job` record (`jobfunnel.backend`, not under
`src/`) with exactly the fields the scraper's constructor call
(lines 106-121) passes. -/
structure Job where
  title : String
  company : String
  location : String
  description : String
  key_id : String
  url : String
  locale : Locale
  query : String
  status : JobStatus
  provider : String
  short_description : Option String
  post_date : Option PostDate
  raw : Fragment
  tags : List String
  deriving DecidableEq, Repr

/-- Modelled from the spec: `get_domain_from_locale`
(`jobfunnel.backend.localization`, not under `src/`); the class docstrings
say `IndeedScraperCAEng` scrapes `www.indeed.ca` and `IndeedScraperUSAEng`
scrapes `www.indeed.com`. -/
def get_domain_from_locale : Locale → String
  | Locale.CANADA_ENGLISH => "ca"
  | Locale.USA_ENGLISH => "com"

/-- Embeds `get_link` (lines 380-391 / 443-454): the job URL derived
deterministically from the job id. -/
def get_link (locale : Locale) (job_id : String) : String :=
  "http://www.indeed." ++ get_domain_from_locale locale ++ "/viewjob?jk=" ++ job_id

/-- Embeds `self.max_results_per_page = 50` (line 31): the page size. -/
def max_results_per_page : Nat := 50

/-- Embeds `convert_radius` (lines 144-162): quantizes a radius onto the supported
buckets via an if/elif chain; the trailing `radius` is Python's fall-through
return of the unmodified argument when no branch fires. -/
def convert_radius (radius : Int) : Int :=
  if radius < 5 then 0
  else if 5 ≤ radius ∧ radius < 10 then 5
  else if 10 ≤ radius ∧ radius < 15 then 10
  else if 15 ≤ radius ∧ radius < 25 then 15
  else if 25 ≤ radius ∧ radius < 50 then 25
  else if 50 ≤ radius ∧ radius < 100 then 50
  else if 100 ≤ radius then 100
  else radius

/-- The spec's RadiusQuantizer bucket table (§4.7), stated from the spec's
words: half-open intervals `[0,5)→0, [5,10)→5, [10,15)→10, [15,25)→15,
[25,50)→25, [50,100)→50, [100,∞)→100`; compared with `convert_radius`. -/
def radiusBucketSpec (r : Int) : Int :=
  if 0 ≤ r ∧ r < 5 then 0
  else if 5 ≤ r ∧ r < 10 then 5
  else if 10 ≤ r ∧ r < 15 then 10
  else if 15 ≤ r ∧ r < 25 then 15
  else if 25 ≤ r ∧ r < 50 then 25
  else if 50 ≤ r ∧ r < 100 then 50
  else 100

/-- Embeds `get_num_pages_to_scrape` (lines 235-255), after the result count
`num_res` has been parsed out of the first page: ceiling division by the
page size, capped by `max_pages` unless `max_pages = 0`. -/
def get_num_pages_to_scrape (num_res : Nat) (max_pages : Nat) : Nat :=
  let number_of_pages := (num_res + max_results_per_page - 1) / max_results_per_page
  if max_pages = 0 then number_of_pages
  else if number_of_pages < max_pages then number_of_pages
  else max_pages

/-- Embeds `search_page_for_job_soups` line 186: the URL of one result page,
the base search URL with the offset parameter
`start = page * max_results_per_page`. -/
def search_page_url (search : String) (page : Nat) : String :=
  search ++ "&start=" ++ toString (page * max_results_per_page)

/-- The fetch loop of `scrape` (lines 61-67): one task is submitted per
page index in `range(0, pages)`, each requesting `search_page_url`. -/
def fetch_phase_pages (pages : Nat) : List Nat :=
  List.range pages

/-- The URLs the fetch phase requests, one per submitted task. -/
def fetch_phase_urls (search : String) (pages : Nat) : List String :=
  (fetch_phase_pages pages).map (search_page_url search)

/-- The `start` offsets the fetch phase requests, one per submitted task. -/
def requested_offsets (pages : Nat) : List Nat :=
  (fetch_phase_pages pages).map (fun page => page * max_results_per_page)

/-- The required stage of the fragment loop (lines 82-91): `get_title`,
`get_company`, `get_location`, `get_id` in sequence and `get_link` on the
id; the first `AttributeError` aborts the whole stage. -/
def required_info (locale : Locale) (f : Fragment) :
    Option (String × String × String × String × String) :=
  match f.title, f.company, f.location, f.key_id with
  | some title, some company, some location, some key_id =>
      some (title, company, location, key_id, get_link locale key_id)
  | _, _, _, _ => none

/-- One iteration of the fragment loop up to the `Job(...)` constructor call
(lines 76-121): required stage, then the two independently-guarded optional
extractions (`tags`, line 93-96 at warning level; `get_date`, lines 98-103
at warning level), then record assembly. Returns the assembled record (or
`none` when the fragment is dropped, lines 89-91 at error level) together
with the log events emitted. -/
def assembleFragment (locale : Locale) (query : String) (f : Fragment) :
    Option Job × List LogLevel :=
  match required_info locale f with
  | none => (none, [LogLevel.error])
  | some (title, company, location, key_id, url) =>
      let tagPart : List String × List LogLevel :=
        match f.tags with
        | some ts => (ts, [])
        | none => ([], [LogLevel.warning])
      let datePart : Option PostDate × List LogLevel :=
        match f.date with
        | some text => (some (PostDate.raw text), [])
        | none => (none, [LogLevel.warning])
      (some
        { title := title
          company := company
          location := location
          description := ""
          key_id := key_id
          url := url
          locale := locale
          query := query
          status := JobStatus.NEW
          provider := "indeed"
          short_description := none
          post_date := datePart.1
          raw := f
          tags := tagPart.1 },
       tagPart.2 ++ datePart.2)

/-- Modelled from the spec: `Job.set_post_date_from_relative_date`
(`jobfunnel.backend`, not under `src/`). §4.4: the DateNormalizer converts
the relative date text into an absolute date anchored at the processing
instant (here the abstract parameter `normalize`) and fails with a
`DateParseError` (`ValueError`, caught at line 132) when the text does not
match any recognized relative-date grammar — in particular when there is no
date text at all. -/
def set_post_date_from_relative_date (normalize : String → Option Date)
    (job : Job) : Except Unit Job :=
  match job.post_date with
  | some (PostDate.raw text) =>
      match normalize text with
      | some d => Except.ok { job with post_date := some (PostDate.abs d) }
      | none => Except.error ()
  | some (PostDate.abs _) => Except.ok job
  | none => Except.error ()

/-- One full iteration of the fragment loop (lines 76-136): assembly
followed by the date fix-up, whose `ValueError` is caught (lines 130-136),
logged at error level, and replaced by the epoch sentinel. -/
def processFragment (normalize : String → Option Date) (locale : Locale)
    (query : String) (f : Fragment) : Option Job × List LogLevel :=
  match assembleFragment locale query f with
  | (none, logs) => (none, logs)
  | (some job, logs) =>
      match set_post_date_from_relative_date normalize job with
      | Except.ok j => (some j, logs)
      | Except.error _ =>
          (some { job with post_date := some (PostDate.abs epochDate) },
           logs ++ [LogLevel.error])

/-- The record a fragment contributes, if any. -/
def emitRecord (normalize : String → Option Date) (locale : Locale)
    (query : String) (f : Fragment) : Option Job :=
  (processFragment normalize locale query f).1

/-- Python `dict` assignment `jobs_dict[job.key_id] = job` (line 139):
replace the entry in place when the key is present, append otherwise. -/
def dictInsert : List (String × Job) → String → Job → List (String × Job)
  | [], k, v => [(k, v)]
  | p :: rest, k, v =>
      if p.1 = k then (k, v) :: rest else p :: dictInsert rest k v

/-- Python `dict` lookup on the association-list model. -/
def dictGet : List (String × Job) → String → Option Job
  | [], _ => none
  | p :: rest, k => if p.1 = k then some p.2 else dictGet rest k

/-- The keys of the dictionary, in insertion order. -/
def dictKeys (d : List (String × Job)) : List String :=
  d.map Prod.fst

/-- One iteration of `for s in job_soup_list` (lines 74-139) acting on
`jobs_dict`: a processed fragment is keyed by id, a dropped one leaves the
dictionary unchanged. -/
def scrapeStep (normalize : String → Option Date) (locale : Locale)
    (query : String) (d : List (String × Job)) (f : Fragment) :
    List (String × Job) :=
  match emitRecord normalize locale query f with
  | some job => dictInsert d job.key_id job
  | none => d

/-- The aggregation phase of `scrape` (lines 73-142): starting from the
empty `jobs_dict`, process the collected fragments in order and return the
keyed result. `query = '+'.join(keywords)` is computed as in `__init__`
(line 32). -/
def scrape (normalize : String → Option Date) (locale : Locale)
    (keywords : List String) (frags : List Fragment) : List (String × Job) :=
  frags.foldl (scrapeStep normalize locale (String.intercalate "+" keywords)) []

/-- The log events the fragment loop sends to the logging collaborator, in
processing order. -/
def scrape_logs (normalize : String → Option Date) (locale : Locale)
    (keywords : List String) (frags : List Fragment) : List LogLevel :=
  frags.flatMap
    (fun f => (processFragment normalize locale (String.intercalate "+" keywords) f).2)

/-- The record derived from the last-processed fragment that yields a record
bearing the given `key_id` — the spec's §3 characterization of the final
`ScrapeResult` entry, compared with `scrape` in the dedup theorem. -/
def lastRecordWithKey (normalize : String → Option Date) (locale : Locale)
    (query : String) : List Fragment → String → Option Job
  | [], _ => none
  | f :: rest, k =>
      match lastRecordWithKey normalize locale query rest k with
      | some j => some j
      | none =>
          match emitRecord normalize locale query f with
          | some j => if j.key_id = k then some j else none
          | none => none

/-- The part of the page fetched by `get_full_description` that the method
reads: the element with `id='jobDescriptionText'`, `none` when absent
(the `AttributeError` caught at line 206). -/
structure DescPage where
  jobDescriptionText : Option String
  deriving DecidableEq, Repr

/-- Modelled from the spec: `Job.clean_strings` (`jobfunnel.backend`, not
under `src/`). The spec (§4.6) treats the stripped description text, or the
empty-string fallback, as the value set on the record, so the trailing
normalization call is modelled as the identity. -/
def clean_strings (job : Job) : Job :=
  job

/-- Embeds `get_full_description` (lines 194-209): one `session.get(job.url)`,
parse the description element, set it (stripped) on the record, falling
back to `''` with a warning when the element is absent, then
`clean_strings`. Returns the updated record, the list of URLs fetched and
the log events emitted. -/
def get_full_description (fetch : String → DescPage) (job : Job) :
    Job × List String × List LogLevel :=
  let page := fetch job.url
  match page.jobDescriptionText with
  | some text =>
      (clean_strings { job with short_description := some text.trim },
       [job.url], [LogLevel.info])
  | none =>
      (clean_strings { job with short_description := some "" },
       [job.url], [LogLevel.info, LogLevel.warning])

/-- Helper: `get_num_pages_to_scrape` with `max_pages = 0` is the raw
ceiling division. -/
theorem get_num_pages_to_scrape_zero (n : Nat) :
    get_num_pages_to_scrape n 0
      = (n + max_results_per_page - 1) / max_results_per_page := rfl

/-- C3: for every total result count `n` extracted from the first page,
`get_num_pages_to_scrape` returns `ceil(n / page_size)` when
`max_pages = 0` (the uncapped value is the unique `q` with
`n ≤ q * 50 < n + 50`), returns `max_pages` whenever the computed page
count exceeds `max_pages > 0`, and `n = 237` with page size 50 yields 5. -/
theorem get_num_pages_to_scrape_spec : ∀ num_res max_pages : Nat,
    (num_res ≤ get_num_pages_to_scrape num_res 0 * max_results_per_page ∧
      get_num_pages_to_scrape num_res 0 * max_results_per_page
        < num_res + max_results_per_page) ∧
    (0 < max_pages → max_pages < get_num_pages_to_scrape num_res 0 →
      get_num_pages_to_scrape num_res max_pages = max_pages) ∧
    get_num_pages_to_scrape 237 0 = 5 := by
  intro n mp
  refine ⟨?_, ?_, by decide⟩
  · rw [get_num_pages_to_scrape_zero]
    unfold max_results_per_page
    omega
  · intro h1 h2
    rw [get_num_pages_to_scrape_zero] at h2
    simp only [get_num_pages_to_scrape, max_results_per_page] at *
    split_ifs <;> omega

/-- Witness for C3 at `num_res = 237`, `max_pages = 3`
(the uncapped count is 5, so the cap of 3 applies). -/
theorem get_num_pages_to_scrape_spec_witness :
    (237 ≤ get_num_pages_to_scrape 237 0 * max_results_per_page ∧
      get_num_pages_to_scrape 237 0 * max_results_per_page
        < 237 + max_results_per_page) ∧
    (0 < 3 ∧ 3 < get_num_pages_to_scrape 237 0 ∧
      get_num_pages_to_scrape 237 3 = 3) ∧
    get_num_pages_to_scrape 237 0 = 5 :=
  ⟨(get_num_pages_to_scrape_spec 237 3).1,
   ⟨by decide, by decide,
    (get_num_pages_to_scrape_spec 237 3).2.1 (by decide) (by decide)⟩,
   (get_num_pages_to_scrape_spec 237 3).2.2⟩

/-- Helper: `convert_radius` only produces the seven supported buckets. -/
theorem convert_radius_mem_buckets (r : Int) :
    convert_radius r = 0 ∨ convert_radius r = 5 ∨ convert_radius r = 10 ∨
    convert_radius r = 15 ∨ convert_radius r = 25 ∨ convert_radius r = 50 ∨
    convert_radius r = 100 := by
  unfold convert_radius
  split_ifs <;> omega

/-- C7: for every non-negative radius `r`, `convert_radius r` equals the
spec's half-open-interval bucket table, and `convert_radius` is idempotent
on every input. -/
theorem convert_radius_spec : ∀ r : Int,
    (0 ≤ r → convert_radius r = radiusBucketSpec r) ∧
    convert_radius (convert_radius r) = convert_radius r := by
  intro r
  constructor
  · intro h
    unfold convert_radius radiusBucketSpec
    split_ifs <;> omega
  · rcases convert_radius_mem_buckets r with h | h | h | h | h | h | h <;>
      rw [h] <;> decide

/-- Witness for C7 at `r = 24` (bucket 15). -/
theorem convert_radius_spec_witness :
    (0 : Int) ≤ 24 ∧ convert_radius 24 = radiusBucketSpec 24 ∧
    convert_radius (convert_radius 24) = convert_radius 24 :=
  ⟨by decide, (convert_radius_spec 24).1 (by decide),
   (convert_radius_spec 24).2⟩

/-- C10: `convert_radius` is total over all integers; every negative radius
falls into the first branch `radius < 5` and is mapped to the 0 bucket
rather than an error. -/
theorem convert_radius_neg (r : Int) (h : r < 0) : convert_radius r = 0 := by
  unfold convert_radius
  split_ifs <;> omega

/-- Witness for C10 at `r = -7`. -/
theorem convert_radius_neg_witness :
    (-7 : Int) < 0 ∧ convert_radius (-7) = 0 :=
  ⟨by decide, convert_radius_neg (-7) (by decide)⟩

/-- C4: the fetch phase submits one task per page index in `[0, pages)`;
the offset `p * page_size` of every such page is requested exactly once
(count 1 in the requested-offset list), an out-of-range page's offset is
never requested, exactly `pages` requests are made in total, and the `p`-th
task requests the URL formed from the base search URL with
`start = p * page_size`. -/
theorem fetch_phase_coverage : ∀ (search : String) (pages p : Nat),
    (p < pages →
      (requested_offsets pages).count (p * max_results_per_page) = 1) ∧
    (¬ p < pages →
      (requested_offsets pages).count (p * max_results_per_page) = 0) ∧
    (requested_offsets pages).length = pages ∧
    (fetch_phase_urls search pages).length = pages ∧
    (p < pages →
      (fetch_phase_urls search pages)[p]? = some (search_page_url search p)) := by
  intro search pages p
  have hinj : Function.Injective (fun page : Nat => page * max_results_per_page) := by
    intro a b hab
    simp only [max_results_per_page] at hab
    omega
  have hnd : (requested_offsets pages).Nodup :=
    (List.nodup_range pages).map hinj
  refine ⟨?_, ?_, ?_, ?_, ?_⟩
  · intro hp
    exact List.count_eq_one_of_mem hnd
      (List.mem_map.2 ⟨p, List.mem_range.2 hp, rfl⟩)
  · intro hp
    refine List.count_eq_zero.2 ?_
    intro hmem
    rcases List.mem_map.1 hmem with ⟨q, hq, hqe⟩
    exact hp (hinj hqe ▸ List.mem_range.1 hq)
  · simp [requested_offsets, fetch_phase_pages]
  · simp [fetch_phase_urls, fetch_phase_pages]
  · intro hp
    simp [fetch_phase_urls, fetch_phase_pages, List.getElem?_map,
      List.getElem?_range, hp]

/-- Witness for C4 at `pages = 3`, `p = 1` (and `p = 5` for the
out-of-range part). -/
theorem fetch_phase_coverage_witness :
    ((1 : Nat) < 3 ∧
      (requested_offsets 3).count (1 * max_results_per_page) = 1 ∧
      (fetch_phase_urls "S" 3)[1]? = some (search_page_url "S" 1)) ∧
    (¬ (5 : Nat) < 3 ∧
      (requested_offsets 3).count (5 * max_results_per_page) = 0) ∧
    (requested_offsets 3).length = 3 :=
  ⟨⟨by decide, (fetch_phase_coverage "S" 3 1).1 (by decide),
    (fetch_phase_coverage "S" 3 1).2.2.2.2 (by decide)⟩,
   ⟨by decide, (fetch_phase_coverage "S" 3 5).2.1 (by decide)⟩,
   (fetch_phase_coverage "S" 3 1).2.2.1⟩

/-- Python-dict lemma: looking up the key just assigned returns the new
value (the assignment at line 139 silently overwrites). -/
theorem dictGet_dictInsert_self (d : List (String × Job)) (k : String)
    (v : Job) : dictGet (dictInsert d k v) k = some v := by
  induction d with
  | nil => simp [dictInsert, dictGet]
  | cons p rest ih =>
      by_cases h : p.1 = k
      · simp [dictInsert, dictGet, h]
      · simp [dictInsert, dictGet, h, ih]

/-- Python-dict lemma: assignment leaves other keys unchanged. -/
theorem dictGet_dictInsert_ne (d : List (String × Job)) (k k' : String)
    (v : Job) (h : k' ≠ k) :
    dictGet (dictInsert d k v) k' = dictGet d k' := by
  induction d with
  | nil =>
      simp [dictInsert, dictGet, Ne.symm h]
  | cons p rest ih =>
      unfold dictInsert
      by_cases hpk : p.1 = k
      · rw [if_pos hpk]
        simp [dictGet, hpk, Ne.symm h]
      · rw [if_neg hpk]
        simp [dictGet, ih]

/-- Python-dict lemma: assignment adds the key only when it is new. -/
theorem dictKeys_dictInsert (d : List (String × Job)) (k : String) (v : Job) :
    dictKeys (dictInsert d k v)
      = if k ∈ dictKeys d then dictKeys d else dictKeys d ++ [k] := by
  induction d with
  | nil => simp [dictInsert, dictKeys]
  | cons p rest ih =>
      unfold dictInsert
      by_cases hpk : p.1 = k
      · rw [if_pos hpk]
        simp [dictKeys, hpk]
      · rw [if_neg hpk]
        by_cases hk : k ∈ dictKeys rest
        · simp only [dictKeys] at ih hk ⊢
          rw [List.map_cons, ih]
          simp [hk, Ne.symm hpk]
        · simp only [dictKeys] at ih hk ⊢
          rw [List.map_cons, ih]
          simp [hk, Ne.symm hpk]

/-- Python-dict lemma: assignment preserves key uniqueness. -/
theorem dictKeys_nodup_dictInsert (d : List (String × Job)) (k : String)
    (v : Job) (h : (dictKeys d).Nodup) :
    (dictKeys (dictInsert d k v)).Nodup := by
  rw [dictKeys_dictInsert]
  split_ifs with hk
  · exact h
  · simp [List.nodup_append, h, hk]

/-- Helper: the aggregation loop looks up to the record contributed by the
last fragment yielding the key, falling back to the starting dictionary. -/
theorem dictGet_foldl_scrapeStep (normalize : String → Option Date)
    (locale : Locale) (query : String) (frags : List Fragment)
    (d : List (String × Job)) (k : String) :
    dictGet (frags.foldl (scrapeStep normalize locale query) d) k
      = match lastRecordWithKey normalize locale query frags k with
        | some j => some j
        | none => dictGet d k := by
  induction frags generalizing d with
  | nil => rfl
  | cons f rest ih =>
      rw [List.foldl_cons, ih]
      cases hrest : lastRecordWithKey normalize locale query rest k with
      | some j => simp [lastRecordWithKey, hrest]
      | none =>
          simp only [lastRecordWithKey, hrest]
          unfold scrapeStep
          cases hemit : emitRecord normalize locale query f with
          | none => simp
          | some j =>
              by_cases hk : j.key_id = k
              · subst hk
                simp [dictGet_dictInsert_self]
              · simp [hk, dictGet_dictInsert_ne _ _ _ _ (fun e => hk e.symm)]

/-- Helper: the aggregation loop preserves key uniqueness. -/
theorem dictKeys_nodup_foldl_scrapeStep (normalize : String → Option Date)
    (locale : Locale) (query : String) (frags : List Fragment)
    (d : List (String × Job)) (h : (dictKeys d).Nodup) :
    (dictKeys (frags.foldl (scrapeStep normalize locale query) d)).Nodup := by
  induction frags generalizing d with
  | nil => exact h
  | cons f rest ih =>
      rw [List.foldl_cons]
      apply ih
      unfold scrapeStep
      cases hemit : emitRecord normalize locale query f with
      | none => exact h
      | some j => exact dictKeys_nodup_dictInsert _ _ _ h

/-- C1: deduplication is last-write-wins with no collision signal. For every
processed fragment sequence, `scrape` maps each `key_id` to exactly one
record (its key list has no duplicates), namely the record derived from the
last-processed fragment yielding that `key_id` (`lastRecordWithKey`); and a
`dictInsert` of a record whose key already exists silently overwrites the
previous entry (the model is total, so no error is raised). -/
theorem scrape_last_write_wins : ∀ (normalize : String → Option Date)
    (locale : Locale) (keywords : List String) (frags : List Fragment)
    (k : String),
    dictGet (scrape normalize locale keywords frags) k
      = lastRecordWithKey normalize locale
          (String.intercalate "+" keywords) frags k ∧
    (dictKeys (scrape normalize locale keywords frags)).Nodup ∧
    ∀ (d : List (String × Job)) (v : Job),
      dictGet (dictInsert d k v) k = some v := by
  intro normalize locale keywords frags k
  refine ⟨?_, ?_, fun d v => dictGet_dictInsert_self d k v⟩
  · rw [scrape, dictGet_foldl_scrapeStep]
    cases lastRecordWithKey normalize locale
        (String.intercalate "+" keywords) frags k <;> rfl
  · exact dictKeys_nodup_foldl_scrapeStep _ _ _ _ _ (by simp [dictKeys])

/-- Helper: when any required extraction fails, the required stage fails. -/
theorem required_info_eq_none (locale : Locale) (f : Fragment)
    (h : f.title = none ∨ f.company = none ∨ f.location = none ∨
      f.key_id = none) : required_info locale f = none := by
  unfold required_info
  cases hft : f.title <;> cases hfc : f.company <;> cases hfl : f.location <;>
    cases hfk : f.key_id <;> simp_all

/-- Helper: a fragment failing the required stage emits no record and logs
exactly one error event. -/
theorem processFragment_required_fail (normalize : String → Option Date)
    (locale : Locale) (query : String) (f : Fragment)
    (h : required_info locale f = none) :
    processFragment normalize locale query f = (none, [LogLevel.error]) := by
  unfold processFragment assembleFragment
  rw [h]

/-- C2: required-field policy. A fragment for which extraction of `title`,
`company`, `location` or `key_id` fails contributes nothing to the
`ScrapeResult` — removing it from anywhere in the processed sequence leaves
the result unchanged — no record is emitted for it, an error-level event is
logged, and processing continues with the remaining fragments (the
surrounding fragments still produce the same result). -/
theorem required_fail_drops_fragment : ∀ (normalize : String → Option Date)
    (locale : Locale) (keywords : List String) (l1 l2 : List Fragment)
    (f : Fragment),
    (f.title = none ∨ f.company = none ∨ f.location = none ∨
      f.key_id = none) →
    scrape normalize locale keywords (l1 ++ f :: l2)
      = scrape normalize locale keywords (l1 ++ l2) ∧
    emitRecord normalize locale (String.intercalate "+" keywords) f = none ∧
    (processFragment normalize locale (String.intercalate "+" keywords) f).2
      = [LogLevel.error] := by
  intro normalize locale keywords l1 l2 f h
  have hreq := required_info_eq_none locale f h
  have hproc := processFragment_required_fail normalize locale
    (String.intercalate "+" keywords) f hreq
  refine ⟨?_, ?_, ?_⟩
  · unfold scrape
    rw [List.foldl_append, List.foldl_append, List.foldl_cons]
    have hstep : ∀ d, scrapeStep normalize locale
        (String.intercalate "+" keywords) d f = d := by
      intro d
      unfold scrapeStep emitRecord
      rw [hproc]
    rw [hstep]
  · unfold emitRecord
    rw [hproc]
  · rw [hproc]

/-- Witness for C2: of 4 fragments (2 pages × 2 fragments) with exactly one
missing its title, the fragment is dropped and exactly 3 entries remain. -/
theorem required_fail_drops_fragment_witness :
    ((⟨none, some "c2", some "l2", some "k2", none, none⟩ : Fragment).title
        = none ∨
      (⟨none, some "c2", some "l2", some "k2", none, none⟩ : Fragment).company
        = none ∨
      (⟨none, some "c2", some "l2", some "k2", none, none⟩ : Fragment).location
        = none ∨
      (⟨none, some "c2", some "l2", some "k2", none, none⟩ : Fragment).key_id
        = none) ∧
    scrape (fun _ => none) Locale.CANADA_ENGLISH ["x"]
        ([⟨some "t1", some "c1", some "l1", some "k1", none, none⟩]
          ++ ⟨none, some "c2", some "l2", some "k2", none, none⟩
            :: [⟨some "t3", some "c3", some "l3", some "k3", none, none⟩,
                ⟨some "t4", some "c4", some "l4", some "k4", none, none⟩])
      = scrape (fun _ => none) Locale.CANADA_ENGLISH ["x"]
        ([⟨some "t1", some "c1", some "l1", some "k1", none, none⟩]
          ++ [⟨some "t3", some "c3", some "l3", some "k3", none, none⟩,
              ⟨some "t4", some "c4", some "l4", some "k4", none, none⟩]) ∧
    (scrape (fun _ => none) Locale.CANADA_ENGLISH ["x"]
        [⟨some "t1", some "c1", some "l1", some "k1", none, none⟩,
         ⟨none, some "c2", some "l2", some "k2", none, none⟩,
         ⟨some "t3", some "c3", some "l3", some "k3", none, none⟩,
         ⟨some "t4", some "c4", some "l4", some "k4", none, none⟩]).length
      = 3 :=
  ⟨Or.inl rfl,
   (required_fail_drops_fragment (fun _ => none) Locale.CANADA_ENGLISH ["x"]
      [⟨some "t1", some "c1", some "l1", some "k1", none, none⟩]
      [⟨some "t3", some "c3", some "l3", some "k3", none, none⟩,
       ⟨some "t4", some "c4", some "l4", some "k4", none, none⟩]
      ⟨none, some "c2", some "l2", some "k2", none, none⟩ (Or.inl rfl)).1,
   by decide⟩

/-- C5: date-failure policy. For a fragment whose required stage succeeded
but whose relative-date text is rejected by the date normalizer, the record
is kept with `post_date` set to the sentinel `1970-01-01`, an error-level
event is logged, and the record is still inserted into the result under its
`key_id`. -/
theorem date_parse_failure_keeps_record : ∀ (normalize : String → Option Date)
    (locale : Locale) (keywords : List String) (l : List Fragment)
    (f : Fragment) (t c lo k s : String),
    f.title = some t → f.company = some c → f.location = some lo →
    f.key_id = some k → f.date = some s → normalize s = none →
    (emitRecord normalize locale (String.intercalate "+" keywords) f).map
        Job.post_date = some (some (PostDate.abs epochDate)) ∧
    (emitRecord normalize locale (String.intercalate "+" keywords) f).map
        Job.key_id = some k ∧
    LogLevel.error ∈
      (processFragment normalize locale (String.intercalate "+" keywords) f).2 ∧
    dictGet (scrape normalize locale keywords (l ++ [f])) k
      = emitRecord normalize locale (String.intercalate "+" keywords) f := by
  intro normalize locale keywords l f t c lo k s ht hc hl hk hd hn
  have hreq : required_info locale f = some (t, c, lo, k, get_link locale k) := by
    unfold required_info
    rw [ht, hc, hl, hk]
  obtain ⟨j, hjE, hjPd, hjK⟩ : ∃ j,
      emitRecord normalize locale (String.intercalate "+" keywords) f = some j ∧
      j.post_date = some (PostDate.abs epochDate) ∧ j.key_id = k := by
    cases hft : f.tags <;>
      simp [emitRecord, processFragment, assembleFragment, hreq, hd, hn, hft,
        set_post_date_from_relative_date]
  have hlog : LogLevel.error ∈
      (processFragment normalize locale (String.intercalate "+" keywords) f).2 := by
    cases hft : f.tags <;>
      simp [processFragment, assembleFragment, hreq, hd, hn, hft,
        set_post_date_from_relative_date]
  refine ⟨?_, ?_, hlog, ?_⟩
  · rw [hjE, Option.map_some', hjPd]
  · rw [hjE, Option.map_some', hjK]
  · unfold scrape
    rw [List.foldl_append]
    simp only [List.foldl_cons, List.foldl_nil]
    unfold scrapeStep
    simp only [hjE, hjK]
    rw [dictGet_dictInsert_self]

/-- Witness for C5: a fragment with all required fields, no tags, and date
text `"yesterday"` that the normalizer rejects. -/
theorem date_parse_failure_keeps_record_witness :
    (emitRecord (fun _ => none) Locale.CANADA_ENGLISH
        (String.intercalate "+" ["x"])
        ⟨some "T", some "C", some "L", some "K", none, some "yesterday"⟩).map
        Job.post_date = some (some (PostDate.abs epochDate)) ∧
    (emitRecord (fun _ => none) Locale.CANADA_ENGLISH
        (String.intercalate "+" ["x"])
        ⟨some "T", some "C", some "L", some "K", none, some "yesterday"⟩).map
        Job.key_id = some "K" ∧
    LogLevel.error ∈
      (processFragment (fun _ => none) Locale.CANADA_ENGLISH
        (String.intercalate "+" ["x"])
        ⟨some "T", some "C", some "L", some "K", none, some "yesterday"⟩).2 ∧
    dictGet (scrape (fun _ => none) Locale.CANADA_ENGLISH ["x"]
        ([] ++ [⟨some "T", some "C", some "L", some "K", none,
          some "yesterday"⟩])) "K"
      = emitRecord (fun _ => none) Locale.CANADA_ENGLISH
          (String.intercalate "+" ["x"])
          ⟨some "T", some "C", some "L", some "K", none, some "yesterday"⟩ :=
  date_parse_failure_keeps_record (fun _ => none) Locale.CANADA_ENGLISH ["x"]
    [] ⟨some "T", some "C", some "L", some "K", none, some "yesterday"⟩
    "T" "C" "L" "K" "yesterday" rfl rfl rfl rfl rfl rfl

/-- C6: optional-stage isolation. Once the required stage has succeeded, a
record is always assembled; its `tags` field is a function of `f.tags`
alone (defaulting to the empty sequence on failure) and its pre-normalization
`post_date` is a function of `f.date` alone (left unset on failure), so a
failure of either optional extraction affects neither the other one nor the
existence of the record — which survives through `processFragment`. -/
theorem optional_stage_isolation : ∀ (normalize : String → Option Date)
    (locale : Locale) (keywords : List String) (f : Fragment)
    (t c lo k : String),
    f.title = some t → f.company = some c → f.location = some lo →
    f.key_id = some k →
    ((assembleFragment locale (String.intercalate "+" keywords) f).1.map
        Job.tags = some (f.tags.getD [])) ∧
    ((assembleFragment locale (String.intercalate "+" keywords) f).1.map
        Job.post_date = some (f.date.map PostDate.raw)) ∧
    (f.tags = none →
      (assembleFragment locale (String.intercalate "+" keywords) f).1.map
        Job.tags = some []) ∧
    (f.date = none →
      (assembleFragment locale (String.intercalate "+" keywords) f).1.map
        Job.post_date = some none) ∧
    (emitRecord normalize locale (String.intercalate "+" keywords) f).isSome
      = true := by
  intro normalize locale keywords f t c lo k ht hc hl hk
  have hreq : required_info locale f = some (t, c, lo, k, get_link locale k) := by
    unfold required_info
    rw [ht, hc, hl, hk]
  refine ⟨?_, ?_, ?_, ?_, ?_⟩
  · cases hft : f.tags <;> simp [assembleFragment, hreq, hft]
  · cases hfd : f.date <;> simp [assembleFragment, hreq, hfd]
  · intro hft
    simp [assembleFragment, hreq, hft]
  · intro hfd
    simp [assembleFragment, hreq, hfd]
  · cases hfd : f.date with
    | none =>
        cases hft : f.tags <;>
          simp [emitRecord, processFragment, assembleFragment, hreq, hft, hfd,
            set_post_date_from_relative_date]
    | some s =>
        cases hft : f.tags <;> cases hns : normalize s <;>
          simp [emitRecord, processFragment, assembleFragment, hreq, hft, hfd,
            hns, set_post_date_from_relative_date]

/-- Witness for C6: a fragment whose tags and date extractions both fail
still yields a record, with empty tags and unset pre-normalization date. -/
theorem optional_stage_isolation_witness :
    ((⟨some "T", some "C", some "L", some "K", none, none⟩ : Fragment).tags
        = none ∧
      (assembleFragment Locale.CANADA_ENGLISH (String.intercalate "+" ["x"])
        ⟨some "T", some "C", some "L", some "K", none, none⟩).1.map Job.tags
        = some []) ∧
    ((⟨some "T", some "C", some "L", some "K", none, none⟩ : Fragment).date
        = none ∧
      (assembleFragment Locale.CANADA_ENGLISH (String.intercalate "+" ["x"])
        ⟨some "T", some "C", some "L", some "K", none, none⟩).1.map
        Job.post_date = some none) ∧
    (emitRecord (fun _ => none) Locale.CANADA_ENGLISH
        (String.intercalate "+" ["x"])
        ⟨some "T", some "C", some "L", some "K", none, none⟩).isSome = true :=
  ⟨⟨rfl,
    (optional_stage_isolation (fun _ => none) Locale.CANADA_ENGLISH ["x"]
      ⟨some "T", some "C", some "L", some "K", none, none⟩
      "T" "C" "L" "K" rfl rfl rfl rfl).2.2.1 rfl⟩,
   ⟨rfl,
    (optional_stage_isolation (fun _ => none) Locale.CANADA_ENGLISH ["x"]
      ⟨some "T", some "C", some "L", some "K", none, none⟩
      "T" "C" "L" "K" rfl rfl rfl rfl).2.2.2.1 rfl⟩,
   (optional_stage_isolation (fun _ => none) Locale.CANADA_ENGLISH ["x"]
      ⟨some "T", some "C", some "L", some "K", none, none⟩
      "T" "C" "L" "K" rfl rfl rfl rfl).2.2.2.2⟩

/-- Helper: a value of the dictionary after an assignment is either the
assigned record or a previous value. -/
theorem mem_values_dictInsert (d : List (String × Job)) (k : String)
    (v j : Job) (h : j ∈ (dictInsert d k v).map Prod.snd) :
    j = v ∨ j ∈ d.map Prod.snd := by
  induction d with
  | nil =>
      simp [dictInsert] at h
      exact Or.inl h
  | cons p rest ih =>
      unfold dictInsert at h
      by_cases hpk : p.1 = k
      · rw [if_pos hpk, List.map_cons] at h
        rcases List.mem_cons.1 h with h | h
        · exact Or.inl h
        · rw [List.map_cons]
          exact Or.inr (List.mem_cons_of_mem _ h)
      · rw [if_neg hpk, List.map_cons] at h
        rcases List.mem_cons.1 h with h | h
        · rw [List.map_cons]
          exact Or.inr (h ▸ List.mem_cons_self _ _)
        · rcases ih h with h' | h'
          · exact Or.inl h'
          · rw [List.map_cons]
            exact Or.inr (List.mem_cons_of_mem _ h')

/-- Helper: a value of the aggregated dictionary is either a starting value
or the record emitted by one of the processed fragments. -/
theorem mem_values_foldl_scrapeStep (normalize : String → Option Date)
    (locale : Locale) (query : String) (frags : List Fragment)
    (d : List (String × Job)) (j : Job)
    (h : j ∈ (frags.foldl (scrapeStep normalize locale query) d).map Prod.snd) :
    j ∈ d.map Prod.snd ∨
      ∃ f, f ∈ frags ∧ emitRecord normalize locale query f = some j := by
  induction frags generalizing d with
  | nil => exact Or.inl h
  | cons f rest ih =>
      rw [List.foldl_cons] at h
      rcases ih _ h with h' | ⟨f', hf', he⟩
      · unfold scrapeStep at h'
        cases hemit : emitRecord normalize locale query f with
        | none =>
            simp only [hemit] at h'
            exact Or.inl h'
        | some jf =>
            simp only [hemit] at h'
            rcases mem_values_dictInsert _ _ _ _ h' with h'' | h''
            · exact Or.inr ⟨f, List.mem_cons_self f rest, by rw [hemit, h'']⟩
            · exact Or.inl h''
      · exact Or.inr ⟨f', List.mem_cons_of_mem f hf', he⟩

/-- Helper: the record assembled from a fragment has the fixed
`status`/`description`/`query`/`provider`/`locale` of lines 106-121. -/
theorem assembleFragment_fields (locale : Locale) (query : String)
    (f : Fragment) (j : Job)
    (h : (assembleFragment locale query f).1 = some j) :
    j.status = JobStatus.NEW ∧ j.description = "" ∧ j.query = query ∧
    j.provider = "indeed" ∧ j.locale = locale := by
  unfold assembleFragment at h
  cases hreq : required_info locale f with
  | none =>
      simp only [hreq] at h
      simp at h
  | some r =>
      obtain ⟨t, c, lo, k, u⟩ := r
      simp only [hreq] at h
      simp at h
      subst h
      simp

/-- Helper: the date fix-up only changes `post_date`. -/
theorem set_post_date_preserves_fields (normalize : String → Option Date)
    (job j : Job)
    (h : set_post_date_from_relative_date normalize job = Except.ok j) :
    j.status = job.status ∧ j.description = job.description ∧
    j.query = job.query ∧ j.provider = job.provider ∧
    j.locale = job.locale := by
  unfold set_post_date_from_relative_date at h
  cases hpd : job.post_date with
  | none =>
      simp only [hpd] at h
      exact Except.noConfusion h
  | some pd =>
      cases pd with
      | raw s =>
          simp only [hpd] at h
          cases hns : normalize s with
          | none =>
              simp only [hns] at h
              exact Except.noConfusion h
          | some dte =>
              simp only [hns, Except.ok.injEq] at h
              subst h
              simp
      | abs dte =>
          simp only [hpd, Except.ok.injEq] at h
          subst h
          simp

/-- Helper: every emitted record carries the fixed assembly fields. -/
theorem emitRecord_fields (normalize : String → Option Date) (locale : Locale)
    (query : String) (f : Fragment) (j : Job)
    (h : emitRecord normalize locale query f = some j) :
    j.status = JobStatus.NEW ∧ j.description = "" ∧ j.query = query ∧
    j.provider = "indeed" ∧ j.locale = locale := by
  unfold emitRecord processFragment at h
  cases hassem : assembleFragment locale query f with
  | mk oj logs =>
      cases oj with
      | none =>
          simp only [hassem] at h
          exact Option.noConfusion h
      | some j0 =>
          have hfields := assembleFragment_fields locale query f j0
            (by rw [hassem])
          simp only [hassem] at h
          cases hset : set_post_date_from_relative_date normalize j0 with
          | ok j' =>
              have hpres := set_post_date_preserves_fields normalize j0 j' hset
              simp only [hset, Option.some.injEq] at h
              subst h
              exact ⟨hpres.1.trans hfields.1, hpres.2.1.trans hfields.2.1,
                hpres.2.2.1.trans hfields.2.2.1,
                hpres.2.2.2.1.trans hfields.2.2.2.1,
                hpres.2.2.2.2.trans hfields.2.2.2.2⟩
          | error e =>
              simp only [hset, Option.some.injEq] at h
              subst h
              exact hfields

/-- C8: record assembly. Every record in the `ScrapeResult` has
`status = NEW`, an empty `description`, `query` equal to the keywords
joined with `+`, provider the constant `"indeed"` of this scraper family,
and the locale of the active scraper configuration. -/
theorem record_assembly : ∀ (normalize : String → Option Date)
    (locale : Locale) (keywords : List String) (frags : List Fragment)
    (j : Job),
    j ∈ (scrape normalize locale keywords frags).map Prod.snd →
    j.status = JobStatus.NEW ∧ j.description = "" ∧
    j.query = String.intercalate "+" keywords ∧
    j.provider = "indeed" ∧ j.locale = locale := by
  intro normalize locale keywords frags j h
  unfold scrape at h
  rcases mem_values_foldl_scrapeStep normalize locale
      (String.intercalate "+" keywords) frags [] j h with h' | ⟨f, _, he⟩
  · simp at h'
  · exact emitRecord_fields normalize locale
      (String.intercalate "+" keywords) f j he

/-- Witness for C8: the record scraped from one complete fragment. -/
theorem record_assembly_witness :
    (⟨"T", "C", "L", "", "K", "http://www.indeed.ca/viewjob?jk=K",
        Locale.CANADA_ENGLISH, "a+b", JobStatus.NEW, "indeed", none,
        some (PostDate.abs epochDate),
        ⟨some "T", some "C", some "L", some "K", none, none⟩, []⟩ : Job)
      ∈ (scrape (fun _ => none) Locale.CANADA_ENGLISH ["a", "b"]
          [⟨some "T", some "C", some "L", some "K", none, none⟩]).map
          Prod.snd ∧
    ((⟨"T", "C", "L", "", "K", "http://www.indeed.ca/viewjob?jk=K",
        Locale.CANADA_ENGLISH, "a+b", JobStatus.NEW, "indeed", none,
        some (PostDate.abs epochDate),
        ⟨some "T", some "C", some "L", some "K", none, none⟩, []⟩ : Job).status
        = JobStatus.NEW ∧
      (⟨"T", "C", "L", "", "K", "http://www.indeed.ca/viewjob?jk=K",
        Locale.CANADA_ENGLISH, "a+b", JobStatus.NEW, "indeed", none,
        some (PostDate.abs epochDate),
        ⟨some "T", some "C", some "L", some "K", none, none⟩, []⟩ : Job).description
        = "" ∧
      (⟨"T", "C", "L", "", "K", "http://www.indeed.ca/viewjob?jk=K",
        Locale.CANADA_ENGLISH, "a+b", JobStatus.NEW, "indeed", none,
        some (PostDate.abs epochDate),
        ⟨some "T", some "C", some "L", some "K", none, none⟩, []⟩ : Job).query
        = String.intercalate "+" ["a", "b"] ∧
      (⟨"T", "C", "L", "", "K", "http://www.indeed.ca/viewjob?jk=K",
        Locale.CANADA_ENGLISH, "a+b", JobStatus.NEW, "indeed", none,
        some (PostDate.abs epochDate),
        ⟨some "T", some "C", some "L", some "K", none, none⟩, []⟩ : Job).provider
        = "indeed" ∧
      (⟨"T", "C", "L", "", "K", "http://www.indeed.ca/viewjob?jk=K",
        Locale.CANADA_ENGLISH, "a+b", JobStatus.NEW, "indeed", none,
        some (PostDate.abs epochDate),
        ⟨some "T", some "C", some "L", some "K", none, none⟩, []⟩ : Job).locale
        = Locale.CANADA_ENGLISH) :=
  ⟨by decide,
   record_assembly (fun _ => none) Locale.CANADA_ENGLISH ["a", "b"]
     [⟨some "T", some "C", some "L", some "K", none, none⟩] _ (by decide)⟩

/-- C9: secondary description fetch. `get_full_description` performs exactly
one fetch, of the record's `url`; when the description element is present it
sets the stripped text on the record, and when it is absent it sets the
empty string and returns normally (the model is a total function). -/
theorem get_full_description_spec : ∀ (fetch : String → DescPage) (job : Job),
    (get_full_description fetch job).2.1 = [job.url] ∧
    ((fetch job.url).jobDescriptionText = none →
      (get_full_description fetch job).1.short_description = some "") ∧
    ((fetch job.url).jobDescriptionText.isSome = true →
      (get_full_description fetch job).1.short_description
        = (fetch job.url).jobDescriptionText.map (fun t => t.trim)) := by
  intro fetch job
  cases h : (fetch job.url).jobDescriptionText <;>
    simp [get_full_description, clean_strings, h]

/-- Witness for C9: one record, fetched once against a page without the
description element and once against a page with text `" x "`. -/
theorem get_full_description_spec_witness :
    ((get_full_description (fun _ => (⟨none⟩ : DescPage))
        (⟨"T", "C", "L", "", "K", "u", Locale.USA_ENGLISH, "q", JobStatus.NEW,
          "indeed", none, none, ⟨none, none, none, none, none, none⟩,
          []⟩ : Job)).2.1
      = [(⟨"T", "C", "L", "", "K", "u", Locale.USA_ENGLISH, "q", JobStatus.NEW,
          "indeed", none, none, ⟨none, none, none, none, none, none⟩,
          []⟩ : Job).url] ∧
      (get_full_description (fun _ => (⟨none⟩ : DescPage))
        (⟨"T", "C", "L", "", "K", "u", Locale.USA_ENGLISH, "q", JobStatus.NEW,
          "indeed", none, none, ⟨none, none, none, none, none, none⟩,
          []⟩ : Job)).1.short_description = some "") ∧
    (get_full_description (fun _ => (⟨some " x "⟩ : DescPage))
        (⟨"T", "C", "L", "", "K", "u", Locale.USA_ENGLISH, "q", JobStatus.NEW,
          "indeed", none, none, ⟨none, none, none, none, none, none⟩,
          []⟩ : Job)).1.short_description
      = ((fun _ => (⟨some " x "⟩ : DescPage))
          (⟨"T", "C", "L", "", "K", "u", Locale.USA_ENGLISH, "q",
            JobStatus.NEW, "indeed", none, none,
            ⟨none, none, none, none, none, none⟩,
            []⟩ : Job).url).jobDescriptionText.map (fun t => t.trim) :=
  ⟨⟨(get_full_description_spec (fun _ => (⟨none⟩ : DescPage))
      ⟨"T", "C", "L", "", "K", "u", Locale.USA_ENGLISH, "q", JobStatus.NEW,
        "indeed", none, none, ⟨none, none, none, none, none, none⟩, []⟩).1,
    (get_full_description_spec (fun _ => (⟨none⟩ : DescPage))
      ⟨"T", "C", "L", "", "K", "u", Locale.USA_ENGLISH, "q", JobStatus.NEW,
        "indeed", none, none, ⟨none, none, none, none, none, none⟩,
        []⟩).2.1 rfl⟩,
   (get_full_description_spec (fun _ => (⟨some " x "⟩ : DescPage))
      ⟨"T", "C", "L", "", "K", "u", Locale.USA_ENGLISH, "q", JobStatus.NEW,
        "indeed", none, none, ⟨none, none, none, none, none, none⟩,
        []⟩).2.2 rfl⟩

end Indeed
